import Mathlib

set_option maxRecDepth 8000

namespace Reorg

/-- Characters of a filename or of file content. Paths are kept relative to
the tests root, with slash separators, mirroring the path strings the
reorganization script manipulates after walking `tests_dir`. -/
abbrev Str := List Char

/-- Fuel-bounded literal replacement scanning left to right, mirroring Python
`str.replace(pat, rep)` for nonempty patterns; every pattern the script ever
replaces is a nonempty literal, and the fuel `s.length` used by `replS` is
always sufficient since each step consumes at least one character. -/
def replFuel : Nat → Str → Str → Str → Str
  | 0, s, _, _ => s
  | _ + 1, [], _, _ => []
  | fuel + 1, c :: rest, pat, rep =>
    if !pat.isEmpty && pat.isPrefixOf (c :: rest) then
      rep ++ replFuel fuel ((c :: rest).drop pat.length) pat rep
    else
      c :: replFuel fuel rest pat rep

/-- Python `s.replace(pat, rep)`. -/
def replS (s pat rep : Str) : Str := replFuel s.length s pat rep

/-- Python substring membership `pat in s`. -/
def hasSub (pat : Str) : Str → Bool
  | [] => pat.isEmpty
  | c :: rest => pat.isPrefixOf (c :: rest) || hasSub pat rest

/-- Python `s.endswith(suf)`. -/
def endsWithS (s suf : Str) : Bool := s.reverse.take suf.length == suf.reverse

/-- Python `s.lower()`. -/
def lowerS (s : Str) : Str := s.map Char.toLower

/-- Python `s.capitalize()`: first character uppercased, the rest lowercased. -/
def capitalizeS : Str → Str
  | [] => []
  | c :: rest => Char.toUpper c :: rest.map Char.toLower

/-- Python `s.split(sep)` for the single separator character used by the name
generator; the empty string splits into one empty field. -/
def splitUnders : Str → List Str
  | [] => [[]]
  | c :: rest =>
    if c = '_' then [] :: splitUnders rest
    else
      match splitUnders rest with
      | [] => [[c]]
      | g :: gs => (c :: g) :: gs

/-- Python `Path(p).name`: the component after the last slash. -/
def baseNameS (p : Str) : Str := (p.reverse.takeWhile (fun c => c ≠ '/')).reverse

/-- String form of the parent directory of a relative path, with a dot for a
path that has no directory component, matching the `rel_path` strings the
walk produces and the parent comparison done by the plan builder. -/
def dirNameS (p : Str) : Str :=
  let r := p.reverse.dropWhile (fun c => c ≠ '/')
  if r.isEmpty then ['.'] else (r.drop 1).reverse

/-- Python `Path(nm).stem` and `Path(nm).suffix` of a base name: the suffix is
present only when the last dot is neither the first nor the last character. -/
def extSplit (nm : Str) : Str × Str :=
  let r := nm.reverse
  let afterDot := r.takeWhile (fun c => c ≠ '.')
  if afterDot.length = r.length ∨ afterDot.length + 1 = r.length ∨ afterDot.length = 0 then
    (nm, [])
  else
    ((r.drop (afterDot.length + 1)).reverse, '.' :: afterDot.reverse)

/-- The categories of the `structure` dictionary built by
`analyze_current_structure`. -/
inductive Cat
  | unit
  | integration
  | performance
  | controller
  | command
  | factory
  | misc
deriving DecidableEq

/-- Lowercase dictionary key of a category, as used for `category.capitalize()`
when the plan builder picks the target directory. -/
def catKey : Cat → Str
  | .unit => ("unit").data
  | .integration => ("integration").data
  | .performance => ("performance").data
  | .controller => ("controller").data
  | .command => ("command").data
  | .factory => ("factory").data
  | .misc => ("misc").data

/-- The `category_map` lookup of `generate_new_name`, with default Test for a
category outside the dictionary. -/
def catPfx : Cat → Str
  | .unit => ("Unit").data
  | .integration => ("Integration").data
  | .performance => ("Performance").data
  | .controller => ("Controller").data
  | .command => ("Command").data
  | .factory => ("Factory").data
  | .misc => ("Test").data

/-- Target directory for a category: `new_dirs.get(category.capitalize(),
category.capitalize())`, which is the capitalized category key in all cases. -/
def catDir (c : Cat) : Str := capitalizeS (catKey c)

def sUnit : Str := ("unit").data
def sTestUnd : Str := ("test_").data
def sSearch : Str := ("search").data
def sError : Str := ("error").data
def sQgraphics : Str := ("qgraphics").data
def sIntegration : Str := ("integration").data
def sPerformance : Str := ("performance").data
def sController : Str := ("controller").data
def sCommand : Str := ("command").data
def sFactory : Str := ("factory").data
def tokTestCap : Str := ("Test").data
def tokUndNew : Str := ("_new").data
def tokUndTest : Str := ("_test").data
def sEngine : Str := ("engine").data
def sValidation : Str := ("validation").data
def sRendering : Str := ("rendering").data
def sState : Str := ("state").data
def sManager : Str := ("manager").data
def sService : Str := ("service").data
def sLocator : Str := ("locator").data
def sModel : Str := ("model").data
def cppExt : Str := (".cpp").data
def hExt : Str := (".h").data
def bakExt : Str := (".bak").data
def txtExt : Str := (".txt").data
def sSlash : Str := ("/").data
def sUnd : Str := ("_").data
def sUndTestCap : Str := ("_Test").data

/-- The framework support files skipped by `analyze_current_structure`. -/
def frameworkNames : List Str :=
  [("TestUtilities.cpp").data, ("TestUtilities.h").data,
   ("MockObject.cpp").data, ("MockObject.h").data]

/-- The walk keeps a file when its name ends in .cpp or .h and it is not one
of the framework support files. -/
def keepFile (nm : Str) : Bool :=
  (endsWithS nm cppExt || endsWithS nm hExt) && !(decide (nm ∈ frameworkNames))

/-- Category assignment of `analyze_current_structure` lines 53 to 73: the
first branch tests the unit directory segment together with the `test_`
filename heuristic, the inner branches all file the result under unit, and the
remaining branches test directory segments in order. -/
def categorize (relDir nm : Str) : Cat :=
  if hasSub sUnit relDir || hasSub sTestUnd nm then
    if hasSub sSearch (lowerS nm) then .unit
    else if hasSub sError (lowerS nm) then .unit
    else if hasSub sQgraphics (lowerS nm) then .unit
    else .unit
  else if hasSub sIntegration relDir then .integration
  else if hasSub sPerformance relDir then .performance
  else if hasSub sController relDir then .controller
  else if hasSub sCommand relDir then .command
  else if hasSub sFactory relDir then .factory
  else .misc

/-- A regular file of the tree: its path relative to the tests root and its
textual content. The list order of a tree stands for the walk order. -/
structure FileEnt where
  path : Str
  content : Str
deriving DecidableEq

/-- Paths of the files of a tree. -/
def pathsOf (files : List FileEnt) : List Str := files.map FileEnt.path

/-- The category bucket of `analyze_current_structure`: files of the walk that
pass the extension and framework filters and fall in the given category, in
walk order. -/
def filesOfCat (fs : List FileEnt) (c : Cat) : List Str :=
  (fs.filter (fun f =>
    keepFile (baseNameS f.path) &&
      decide (categorize (dirNameS f.path) (baseNameS f.path) = c))).map FileEnt.path

/-- Name cleanup of `generate_new_name` lines 83 to 84: four literal
replacements applied in order. -/
def cleanStem (s : Str) : Str :=
  replS (replS (replS (replS s sTestUnd []) tokTestCap []) tokUndNew []) tokUndTest []

/-- The special case override chain of `generate_new_name` lines 103 to 116,
checked against the lowercased original stem. -/
def overridePascal (ol pascal : Str) : Str :=
  if hasSub sSearch ol && hasSub sIntegration ol then ("SearchIntegration").data
  else if hasSub sSearch ol && hasSub sEngine ol then ("SearchEngine").data
  else if hasSub sSearch ol && hasSub sValidation ol then ("SearchValidation").data
  else if hasSub sRendering ol && hasSub sPerformance ol then ("RenderingPerformance").data
  else if hasSub sState ol && hasSub sManager ol then ("StateManager").data
  else if hasSub sService ol && hasSub sLocator ol then ("ServiceLocator").data
  else if hasSub sModel ol && hasSub sFactory ol then ("ModelFactory").data
  else pascal

/-- `generate_new_name`: strip noise tokens from the stem, re-join the
underscore-separated parts capitalized, apply the override chain, and compose
prefix, stem and Test marker with the original extension. -/
def generateNewName (oldPath : Str) (c : Cat) : Str :=
  let nm := baseNameS oldPath
  let oldStem := (extSplit nm).1
  let ext := (extSplit nm).2
  let clean := cleanStem oldStem
  let pascal0 := ((splitUnders clean).map capitalizeS).flatten
  let pascal := overridePascal (lowerS oldStem) pascal0
  catPfx c ++ sUnd ++ pascal ++ sUndTestCap ++ ext

/-- Python `Path(p).exists()` over the modelled tree (regular files). -/
def existsPath (fs : List FileEnt) (p : Str) : Bool := fs.any (fun f => f.path == p)

/-- One iteration of the plan loop of `generate_reorganization_plan`: skip a
`_new` duplicate whose clean counterpart exists on disk, otherwise emit the
entry unless it is a no-op in both name and parent directory. -/
def planEntry (fs : List FileEnt) (c : Cat) (p : Str) : Option (Str × Str) :=
  if hasSub tokUndNew p && existsPath fs (replS p tokUndNew []) then none
  else
    let newName := generateNewName p c
    let newPath := catDir c ++ sSlash ++ newName
    if baseNameS p ≠ newName ∨ dirNameS p ≠ dirNameS newPath then some (p, newPath)
    else none

/-- Category iteration order of the plan builder: the `structure` dictionary
order with misc skipped. -/
def catOrder : List Cat :=
  [.unit, .integration, .performance, .controller, .command, .factory]

/-- `generate_reorganization_plan`: the rename map as an association list in
insertion order; keys are distinct because the walk visits each file once. -/
def planOf (fs : List FileEnt) : List (Str × Str) :=
  (catOrder.map (fun c => (filesOfCat fs c).filterMap (planEntry fs c))).flatten

/-- State of the tree during execution: regular files plus the set of
directories, the latter kept as a list of relative paths. -/
structure FsState where
  files : List FileEnt
  dirs : List Str
deriving DecidableEq

/-- Write a file: overwrite the content when the path already exists,
otherwise append a new entry, as a plain filesystem write does. -/
def writeFile (files : List FileEnt) (p c : Str) : List FileEnt :=
  if files.any (fun f => f.path == p) then
    files.map (fun f => if f.path == p then { f with content := c } else f)
  else files ++ [⟨p, c⟩]

/-- Delete the file at a path. -/
def removeFile (files : List FileEnt) (p : Str) : List FileEnt :=
  files.filter (fun f => !(f.path == p))

/-- Content of the file at a path, empty when absent; only consulted behind an
existence check. -/
def contentOf (files : List FileEnt) (p : Str) : Str :=
  match files.find? (fun f => f.path == p) with
  | some f => f.content
  | none => []

/-- `mkdir(parents=True, exist_ok=True)` on the modelled directory set. -/
def addDirIfMissing (dirs : List Str) (d : Str) : List Str :=
  if decide (d ∈ dirs) then dirs else dirs ++ [d]

/-- The fixed directory list created by `execute_reorganization`. -/
def newDirs8 : List Str :=
  [("Unit").data, ("Integration").data, ("Performance").data, ("Controller").data,
   ("Command").data, ("Factory").data, ("Framework").data, ("Utilities").data]

/-- Directory creation phase of `execute_reorganization` lines 246 to 251:
in a dry run nothing is created. -/
def dirPhase (dry : Bool) (st : FsState) : FsState :=
  if dry then st else { st with dirs := newDirs8.foldl addDirIfMissing st.dirs }

/-- One plan entry of the move loop, lines 254 to 274: a vanished source is
skipped; otherwise, outside a dry run, the target directory is created, a
backup copy of the source is written next to it with the bak suffix appended,
and the source is moved to its target. -/
def moveStep (dry : Bool) (st : FsState) (e : Str × Str) : FsState :=
  if !(existsPath st.files e.1) then st
  else if dry then st
  else
    let content := contentOf st.files e.1
    let dirs1 := addDirIfMissing st.dirs (dirNameS e.2)
    let files1 := writeFile st.files (e.1 ++ bakExt) content
    let files2 := writeFile (removeFile files1 e.1) e.2 content
    { files := files2, dirs := dirs1 }

def patQuoted (nm : Str) : Str := ("#include \"").data ++ nm ++ ("\"").data
def patAngled (nm : Str) : Str := ("#include <").data ++ nm ++ (">").data
def patUp1 (nm : Str) : Str := ("#include \"../").data ++ nm ++ ("\"").data
def patUp2 (nm : Str) : Str := ("#include \"../../").data ++ nm ++ ("\"").data

/-- The four include rewrites of `update_includes` for one plan entry, applied
in the listed order on the base names of the entry. -/
def applyIncludeEntry (content : Str) (e : Str × Str) : Str :=
  let onm := baseNameS e.1
  let nn := baseNameS e.2
  let c1 := replS content (patQuoted onm) (patQuoted nn)
  let c2 := replS c1 (patAngled onm) (patAngled nn)
  let c3 := replS c2 (patUp1 onm) (patUp1 nn)
  replS c3 (patUp2 onm) (patUp2 nn)

/-- `update_includes` content transformation: every plan entry applied in
insertion order. -/
def applyIncludes (mp : List (Str × Str)) (content : Str) : Str :=
  mp.foldl applyIncludeEntry content

/-- Whether the include pass visits a file: `rglob` over `*.cpp` and `*.h`. -/
def scannedByIncludes (nm : Str) : Bool :=
  endsWithS nm cppExt || endsWithS nm hExt

/-- Per-file effect of the include pass: the new content is written only when
it differs from the old one and a dry run is not in force. -/
def includeUpd (dry : Bool) (mp : List (Str × Str)) (f : FileEnt) : FileEnt :=
  let c := applyIncludes mp f.content
  if scannedByIncludes (baseNameS f.path) && !(c == f.content) && !dry then
    { f with content := c }
  else f

/-- The include update pass of `execute_reorganization` lines 280 to 286: the
two `rglob` loops visit each .cpp and each .h file once, independently, after
the moves. -/
def includePass (dry : Bool) (mp : List (Str × Str)) (st : FsState) : FsState :=
  { st with files := st.files.map (includeUpd dry mp) }

/-- Whether a file name matches the `rglob` pattern for CMake manifests. -/
def isCMakeName (nm : Str) : Bool :=
  (("CMakeLists").data).isPrefixOf nm && endsWithS nm txtExt

/-- One plan entry of `update_cmake_files`: a bare base name replacement
followed by a relative path replacement; paths are already slash separated. -/
def applyCMakeEntry (content : Str) (e : Str × Str) : Str :=
  let c1 := replS content (baseNameS e.1) (baseNameS e.2)
  replS c1 e.1 e.2

/-- `update_cmake_files` content transformation over the whole plan. -/
def applyCMake (mp : List (Str × Str)) (content : Str) : Str :=
  mp.foldl applyCMakeEntry content

/-- Per-file effect of the CMake pass. -/
def cmakeUpd (dry : Bool) (mp : List (Str × Str)) (f : FileEnt) : FileEnt :=
  let c := applyCMake mp f.content
  if isCMakeName (baseNameS f.path) && !(c == f.content) && !dry then
    { f with content := c }
  else f

/-- The CMake update pass of `execute_reorganization` line 291. -/
def cmakePass (dry : Bool) (mp : List (Str × Str)) (st : FsState) : FsState :=
  { st with files := st.files.map (cmakeUpd dry mp) }

/-- A directory survives the bottom-up empty-directory removal exactly when
some file still lives below it. -/
def underDir (d p : Str) : Bool := (d ++ sSlash).isPrefixOf p

/-- Empty directory cleanup of `execute_reorganization` lines 294 to 300,
guarded against dry runs. -/
def cleanupDirs (dry : Bool) (st : FsState) : FsState :=
  if dry then st
  else { st with dirs := st.dirs.filter (fun d => st.files.any (fun f => underDir d f.path)) }

/-- `execute_reorganization`: build the plan, stop when it is empty, otherwise
create directories, run the move loop, rewrite includes, rewrite CMake
manifests and clean up empty directories, every mutation guarded by the dry
run flag. -/
def executeReorganization (st : FsState) (dry : Bool) : FsState :=
  let mp := planOf st.files
  if mp.isEmpty then st
  else
    let st1 := dirPhase dry st
    let st2 := mp.foldl (moveStep dry) st1
    let st3 := includePass dry mp st2
    let st4 := cmakePass dry mp st3
    cleanupDirs dry st4

/-- Tree with two unit test files whose stems both contain search and engine,
so that the override table sends both to the same canonical name. -/
def stCollide : FsState :=
  ⟨[⟨("unit/search_engine.cpp").data, ("A\n").data⟩,
    ⟨("unit/engine_search.cpp").data, ("B\n").data⟩],
   [("unit").data]⟩

/-- Tree of the controller scenario: one controller test including its own
header. -/
def stActionMap : FsState :=
  ⟨[⟨("controller/ActionMapTest.cpp").data, ("#include \"ActionMapTest.h\"\n").data⟩],
   [("controller").data]⟩

/-- Tree with a unit file whose generated name contains the substring that the
classifier treats as a unit test marker. -/
def stLatest : FsState :=
  ⟨[⟨("unit/latest.cpp").data, []⟩], [("unit").data]⟩

/-- Tree with a unit file whose stem is exactly the noise token, plus a CMake
manifest listing it. -/
def stManifest : FsState :=
  ⟨[⟨("unit/Test.cpp").data, []⟩, ⟨("CMakeLists.txt").data, ("Test.cpp\n").data⟩],
   [("unit").data]⟩

/-- Plan generated from the manifest tree. -/
def mpManifest : List (Str × Str) := planOf stManifest.files

/-- Tree with a controller header and an unplanned root file that includes
it. -/
def stRunner : FsState :=
  ⟨[⟨("controller/ActionMapTest.h").data, []⟩,
    ⟨("runner.cpp").data, ("#include \"ActionMapTest.h\"\n").data⟩],
   [("controller").data]⟩

/-- C1: the plan builder performs no collision detection; on a tree with two
distinct source files that generate the same target path, both appear as keys
of the plan mapping to the same value, so two distinct keys map to one value
and neither file is excluded, refuting the no-collision invariant. -/
theorem c1_counterexample :
    planOf stCollide.files =
      [(("unit/search_engine.cpp").data, ("Unit/Unit_SearchEngine_Test.cpp").data),
       (("unit/engine_search.cpp").data, ("Unit/Unit_SearchEngine_Test.cpp").data)] ∧
    (("unit/search_engine.cpp").data : Str) ≠ ("unit/engine_search.cpp").data := by
  exact ⟨by decide, by decide⟩

/-- C1 amended: colliding sources are both entered into the plan with the
shared target, and executing the plan moves both there, the later entry
overwriting the earlier one, while a backup of each original is kept. -/
theorem c1_amended_thm :
    planOf stCollide.files =
      [(("unit/search_engine.cpp").data, ("Unit/Unit_SearchEngine_Test.cpp").data),
       (("unit/engine_search.cpp").data, ("Unit/Unit_SearchEngine_Test.cpp").data)] ∧
    (executeReorganization stCollide false).files =
      [⟨("unit/search_engine.cpp.bak").data, ("A\n").data⟩,
       ⟨("Unit/Unit_SearchEngine_Test.cpp").data, ("B\n").data⟩,
       ⟨("unit/engine_search.cpp.bak").data, ("B\n").data⟩] := by
  exact ⟨by decide, by decide⟩

/-- C2: the plan maps the controller test to
Controller/Controller_Actionmap_Test.cpp, because the capitalize step
lowercases the interior of the stem, not to the claimed
Controller/Controller_ActionMap_Test.cpp. -/
theorem c2_counterexample :
    planOf stActionMap.files =
      [(("controller/ActionMapTest.cpp").data,
        ("Controller/Controller_Actionmap_Test.cpp").data)] ∧
    (("Controller/Controller_Actionmap_Test.cpp").data : Str) ≠
      ("Controller/Controller_ActionMap_Test.cpp").data := by
  exact ⟨by decide, by decide⟩

/-- C2 amended: the file is classified Controller and planned to
Controller/Controller_Actionmap_Test.cpp; after a non-dry run the original
path is gone, a bak copy of the original exists, and the include line of the
moved file still references ActionMapTest.h, since only the cpp name occurs in
the plan and the include rewrite patterns never match the header reference. -/
theorem c2_amended_thm :
    planOf stActionMap.files =
      [(("controller/ActionMapTest.cpp").data,
        ("Controller/Controller_Actionmap_Test.cpp").data)] ∧
    (executeReorganization stActionMap false).files =
      [⟨("controller/ActionMapTest.cpp.bak").data, ("#include \"ActionMapTest.h\"\n").data⟩,
       ⟨("Controller/Controller_Actionmap_Test.cpp").data,
        ("#include \"ActionMapTest.h\"\n").data⟩] := by
  exact ⟨by decide, by decide⟩

/-- C3: plan building is not idempotent; on the tree with unit/latest.cpp the
plan of the fully executed tree is nonempty. -/
theorem c3_counterexample :
    planOf (executeReorganization stLatest false).files ≠ ([] : List (Str × Str)) := by
  decide

/-- C3 amended: a first-run output name can itself match the classification
heuristics; unit/latest.cpp is planned to Unit/Unit_Latest_Test.cpp, whose
name contains the unit test marker, so the second run plans the further rename
to Unit/Unit_UnitLa_Test.cpp and the second plan is not empty. -/
theorem c3_amended_thm :
    planOf stLatest.files =
      [(("unit/latest.cpp").data, ("Unit/Unit_Latest_Test.cpp").data)] ∧
    (executeReorganization stLatest false).files =
      [⟨("unit/latest.cpp.bak").data, []⟩, ⟨("Unit/Unit_Latest_Test.cpp").data, []⟩] ∧
    planOf (executeReorganization stLatest false).files =
      [(("Unit/Unit_Latest_Test.cpp").data, ("Unit/Unit_UnitLa_Test.cpp").data)] := by
  exact ⟨by decide, by decide, by decide⟩

/-- C4: the CMake rewrite is not idempotent; with the plan of the manifest
tree, whose generated target name embeds the old name as a substring, a second
pass over the already rewritten tree changes additional bytes. -/
theorem c4_counterexample :
    (cmakePass false mpManifest (cmakePass false mpManifest stManifest)).files ≠
      (cmakePass false mpManifest stManifest).files := by
  decide

/-- C4 amended: a file is left untouched by the include pass and by the CMake
pass whenever its content would not change, so either rewrite pass modifies
and reports a file only on an actual change; but rewriting is not idempotent,
since a second CMake pass with the same plan changes additional bytes when a
new name contains an old name. -/
theorem c4_amended_thm :
    (∀ (dry : Bool) (mp : List (Str × Str)) (f : FileEnt),
        applyIncludes mp f.content = f.content → includeUpd dry mp f = f) ∧
    (∀ (dry : Bool) (mp : List (Str × Str)) (f : FileEnt),
        applyCMake mp f.content = f.content → cmakeUpd dry mp f = f) ∧
    (cmakePass false mpManifest (cmakePass false mpManifest stManifest)).files ≠
      (cmakePass false mpManifest stManifest).files := by
  refine ⟨?_, ?_, ?_⟩
  · intro dry mp f h
    simp [includeUpd, h]
  · intro dry mp f h
    simp [cmakeUpd, h]
  · decide

/-- C4 witness: under the nonempty plan of the manifest tree, a source file
without matching include references and a manifest without the planned names
are both left untouched, by the two general parts of the amended theorem with
their hypotheses evaluated. -/
theorem c4_witness :
    includeUpd false mpManifest (⟨("other.cpp").data, ("int x;\n").data⟩ : FileEnt) =
      ⟨("other.cpp").data, ("int x;\n").data⟩ ∧
    cmakeUpd false mpManifest
        (⟨("CMakeLists.txt").data, ("add_library(core)\n").data⟩ : FileEnt) =
      ⟨("CMakeLists.txt").data, ("add_library(core)\n").data⟩ :=
  ⟨c4_amended_thm.1 false mpManifest ⟨("other.cpp").data, ("int x;\n").data⟩ (by decide),
   c4_amended_thm.2.1 false mpManifest
     ⟨("CMakeLists.txt").data, ("add_library(core)\n").data⟩ (by decide)⟩

/-- C6: the reference rewriter modifies runner.cpp in place, rewriting its
include line, and no backup runner.cpp.bak exists anywhere after the run; the
only bak file is the one the executor wrote for the moved header. -/
theorem c6_counterexample :
    (executeReorganization stRunner false).files =
      [⟨("runner.cpp").data, ("#include \"Controller_Actionmap_Test.h\"\n").data⟩,
       ⟨("controller/ActionMapTest.h.bak").data, []⟩,
       ⟨("Controller/Controller_Actionmap_Test.h").data, []⟩] ∧
    (("#include \"Controller_Actionmap_Test.h\"\n").data : Str) ≠
      ("#include \"ActionMapTest.h\"\n").data ∧
    existsPath (executeReorganization stRunner false).files (("runner.cpp.bak").data) = false := by
  exact ⟨by decide, by decide, by decide⟩

/-- C8: a path whose directory contains the integration segment but whose
filename contains the unit test marker is classified Unit, not Integration, so
directory segments are not tested before filename heuristics. -/
theorem c8_counterexample :
    hasSub sIntegration (("integration").data) = true ∧
    categorize (("integration").data) (("test_foo.cpp").data) = Cat.unit ∧
    Cat.unit ≠ Cat.integration := by
  exact ⟨by decide, by decide, by decide⟩

/-- C9: the stripping step truncates a longer word embedding a noise token,
and it is case sensitive rather than case insensitive. -/
theorem c9_counterexample :
    cleanStem (("contest_entry").data) = ("conentry").data ∧
    cleanStem (("TEST_foo").data) = ("TEST_foo").data ∧
    cleanStem (("test_foo").data) = ("foo").data := by
  exact ⟨by decide, by decide, by decide⟩

theorem replFuel_of_hasSub_eq_false (pat rep : Str) :
    ∀ (fuel : Nat) (s : Str), hasSub pat s = false → replFuel fuel s pat rep = s := by
  intro fuel
  induction fuel with
  | zero => intro s _; rfl
  | succ n ih =>
    intro s h
    cases s with
    | nil => rfl
    | cons c rest =>
      have h' : pat.isPrefixOf (c :: rest) = false ∧ hasSub pat rest = false := by
        simpa [hasSub] using h
      simp [replFuel, h'.1, ih rest h'.2]

/-- Replacing a pattern that does not occur leaves a string unchanged. -/
theorem replS_of_hasSub_eq_false (s pat rep : Str) (h : hasSub pat s = false) :
    replS s pat rep = s :=
  replFuel_of_hasSub_eq_false pat rep s.length s h

/-- C9 amended: the stripping step removes the exact, case sensitive tokens of
lines 83 to 84 anywhere in the stem; a stem that contains none of the four
exact substrings is left unchanged, while embedded occurrences inside longer
words are truncated and other-cased variants are not removed. -/
theorem c9_amended_thm (s : Str) (h1 : hasSub sTestUnd s = false)
    (h2 : hasSub tokTestCap s = false) (h3 : hasSub tokUndNew s = false)
    (h4 : hasSub tokUndTest s = false) : cleanStem s = s := by
  unfold cleanStem
  rw [replS_of_hasSub_eq_false _ _ _ h1, replS_of_hasSub_eq_false _ _ _ h2,
    replS_of_hasSub_eq_false _ _ _ h3, replS_of_hasSub_eq_false _ _ _ h4]

/-- C9 witness: a stem free of all four tokens is unchanged. -/
theorem c9_witness : cleanStem (("action_map").data) = ("action_map").data :=
  c9_amended_thm (("action_map").data) (by decide) (by decide) (by decide) (by decide)

/-- C8 amended: the first classification rule combines the unit directory
segment with the filename marker and fires before every directory segment
rule, so a file whose name contains the marker is classified Unit regardless
of its directory; the integration segment decides only when that first rule
fails. -/
theorem c8_amended_thm :
    (∀ relDir nm : Str, (hasSub sUnit relDir || hasSub sTestUnd nm) = true →
        categorize relDir nm = Cat.unit) ∧
    (∀ relDir nm : Str, (hasSub sUnit relDir || hasSub sTestUnd nm) = false →
        hasSub sIntegration relDir = true → categorize relDir nm = Cat.integration) := by
  constructor
  · intro d n h
    unfold categorize
    rw [if_pos h]
    split
    · rfl
    · split
      · rfl
      · split
        · rfl
        · rfl
  · intro d n h h2
    unfold categorize
    rw [if_neg (by simp [h]), if_pos h2]

/-- C8 witness: the amended priority evaluated at concrete paths. -/
theorem c8_witness :
    categorize (("integration").data) (("test_foo.cpp").data) = Cat.unit ∧
    categorize (("integration").data) (("foo.cpp").data) = Cat.integration :=
  ⟨c8_amended_thm.1 (("integration").data) (("test_foo.cpp").data) (by decide),
   c8_amended_thm.2 (("integration").data) (("foo.cpp").data) (by decide) (by decide)⟩

theorem pathsOf_map_of_path_eq {g : FileEnt → FileEnt} (hg : ∀ f, (g f).path = f.path) :
    ∀ l : List FileEnt, pathsOf (l.map g) = pathsOf l := by
  intro l
  induction l with
  | nil => rfl
  | cons a t ih =>
    simp only [pathsOf, List.map_cons] at *
    rw [hg a, ih]

theorem includeUpd_path (dry : Bool) (mp : List (Str × Str)) (f : FileEnt) :
    (includeUpd dry mp f).path = f.path := by
  simp only [includeUpd]
  split
  · rfl
  · rfl

theorem cmakeUpd_path (dry : Bool) (mp : List (Str × Str)) (f : FileEnt) :
    (cmakeUpd dry mp f).path = f.path := by
  simp only [cmakeUpd]
  split
  · rfl
  · rfl

/-- The include pass maps every file to a file at the same path. -/
theorem includePass_pathsOf (dry : Bool) (mp : List (Str × Str)) (st : FsState) :
    pathsOf (includePass dry mp st).files = pathsOf st.files :=
  pathsOf_map_of_path_eq (includeUpd_path dry mp) st.files

/-- The CMake pass maps every file to a file at the same path. -/
theorem cmakePass_pathsOf (dry : Bool) (mp : List (Str × Str)) (st : FsState) :
    pathsOf (cmakePass dry mp st).files = pathsOf st.files :=
  pathsOf_map_of_path_eq (cmakeUpd_path dry mp) st.files

/-- C6 amended: backups are written only by the plan executor for files it
moves, before the move; the reference rewriting passes modify files strictly
in place and never create any file, in particular no backup, since the path
multiset of the tree is unchanged by both passes. -/
theorem c6_amended_thm (dry : Bool) (mp : List (Str × Str)) (st : FsState) :
    pathsOf (includePass dry mp st).files = pathsOf st.files ∧
    pathsOf (cmakePass dry mp st).files = pathsOf st.files :=
  ⟨includePass_pathsOf dry mp st, cmakePass_pathsOf dry mp st⟩

theorem moveStep_dry (st : FsState) (e : Str × Str) : moveStep true st e = st := by
  unfold moveStep
  split
  · rfl
  · simp

theorem foldl_moveStep_dry (mp : List (Str × Str)) :
    ∀ st : FsState, mp.foldl (moveStep true) st = st := by
  induction mp with
  | nil => intro st; rfl
  | cons e t ih =>
    intro st
    rw [List.foldl_cons, moveStep_dry]
    exact ih st

theorem map_id_of_fix {α : Type} {g : α → α} (h : ∀ a, g a = a) :
    ∀ l : List α, l.map g = l := by
  intro l
  induction l with
  | nil => rfl
  | cons a t ih => rw [List.map_cons, h, ih]

theorem includeUpd_dry (mp : List (Str × Str)) (f : FileEnt) :
    includeUpd true mp f = f := by
  simp [includeUpd]

theorem cmakeUpd_dry (mp : List (Str × Str)) (f : FileEnt) :
    cmakeUpd true mp f = f := by
  simp [cmakePass, cmakeUpd]

theorem includePass_dry (mp : List (Str × Str)) (st : FsState) :
    includePass true mp st = st := by
  unfold includePass
  rw [map_id_of_fix (includeUpd_dry mp)]

theorem cmakePass_dry (mp : List (Str × Str)) (st : FsState) :
    cmakePass true mp st = st := by
  unfold cmakePass
  rw [map_id_of_fix (cmakeUpd_dry mp)]

theorem dirPhase_dry (st : FsState) : dirPhase true st = st := rfl

theorem cleanupDirs_dry (st : FsState) : cleanupDirs true st = st := rfl

/-- C5: a dry run performs no filesystem mutation at all; the resulting state,
files and directories alike, is the input state. -/
theorem c5_dry_run_no_mutation (st : FsState) : executeReorganization st true = st := by
  unfold executeReorganization
  dsimp only []
  split
  · rfl
  · rw [dirPhase_dry, foldl_moveStep_dry, includePass_dry, cmakePass_dry, cleanupDirs_dry]

theorem keep_of_mem_filesOfCat {fs : List FileEnt} {c : Cat} {p : Str}
    (h : p ∈ filesOfCat fs c) : keepFile (baseNameS p) = true := by
  unfold filesOfCat at h
  rcases List.mem_map.mp h with ⟨f, hf, rfl⟩
  rcases List.mem_filter.mp hf with ⟨_, hcond⟩
  simp only [Bool.and_eq_true] at hcond
  exact hcond.1

theorem of_keepFile {nm : Str} (h : keepFile nm = true) :
    (endsWithS nm cppExt = true ∨ endsWithS nm hExt = true) ∧ nm ∉ frameworkNames := by
  unfold keepFile at h
  simp only [Bool.and_eq_true] at h
  constructor
  · simpa [Bool.or_eq_true] using h.1
  · simpa using h.2

theorem planEntry_key {fs : List FileEnt} {c : Cat} {p : Str} {e : Str × Str}
    (h : planEntry fs c p = some e) : e.1 = p := by
  unfold planEntry at h
  split at h
  · exact absurd h (by simp)
  · dsimp only [] at h
    split at h
    · cases h
      rfl
    · exact absurd h (by simp)

theorem planOf_key_keep {fs : List FileEnt} {e : Str × Str} (h : e ∈ planOf fs) :
    keepFile (baseNameS e.1) = true := by
  unfold planOf at h
  rcases List.mem_flatten.mp h with ⟨l, hl, hel⟩
  rcases List.mem_map.mp hl with ⟨c, _, rfl⟩
  rcases List.mem_filterMap.mp hel with ⟨p, hp, hpe⟩
  rw [planEntry_key hpe]
  exact keep_of_mem_filesOfCat hp

theorem mem_pathsOf_writeFile {files : List FileEnt} {p : Str} (q c : Str)
    (h : p ∈ pathsOf files) : p ∈ pathsOf (writeFile files q c) := by
  unfold writeFile
  split
  · rw [pathsOf_map_of_path_eq (fun f => by split <;> rfl)]
    exact h
  · unfold pathsOf at *
    rw [List.map_append]
    exact List.mem_append_left _ h

theorem mem_pathsOf_removeFile {files : List FileEnt} {p q : Str} (hne : p ≠ q)
    (h : p ∈ pathsOf files) : p ∈ pathsOf (removeFile files q) := by
  unfold removeFile pathsOf at *
  rcases List.mem_map.mp h with ⟨f, hf, rfl⟩
  refine List.mem_map.mpr ⟨f, List.mem_filter.mpr ⟨hf, ?_⟩, rfl⟩
  simpa using hne

theorem moveStep_preserves {st : FsState} {e : Str × Str} {p : Str} {dry : Bool}
    (hne : p ≠ e.1) (h : p ∈ pathsOf st.files) :
    p ∈ pathsOf (moveStep dry st e).files := by
  unfold moveStep
  dsimp only []
  split
  · exact h
  · split
    · exact h
    · exact mem_pathsOf_writeFile _ _ (mem_pathsOf_removeFile hne (mem_pathsOf_writeFile _ _ h))

theorem foldl_moveStep_preserves {p : Str} (dry : Bool) :
    ∀ (mp : List (Str × Str)) (st : FsState), (∀ e ∈ mp, p ≠ e.1) →
      p ∈ pathsOf st.files → p ∈ pathsOf (mp.foldl (moveStep dry) st).files := by
  intro mp
  induction mp with
  | nil => intro st _ h; exact h
  | cons e t ih =>
    intro st hne h
    rw [List.foldl_cons]
    exact ih _ (fun x hx => hne x (List.mem_cons_of_mem _ hx))
      (moveStep_preserves (hne e (List.mem_cons_self _ _)) h)

theorem dirPhase_files (dry : Bool) (st : FsState) : (dirPhase dry st).files = st.files := by
  unfold dirPhase
  split
  · rfl
  · rfl

theorem cleanupDirs_files (dry : Bool) (st : FsState) :
    (cleanupDirs dry st).files = st.files := by
  unfold cleanupDirs
  split
  · rfl
  · rfl

/-- C7: a file whose name is one of the framework support names is excluded
from every category bucket, never appears as a key of the plan, and its path
survives a full execution untouched, dry or not, so it is never moved or
renamed. -/
theorem c7_framework_untouched :
    (∀ (fs : List FileEnt) (c : Cat) (p : Str), p ∈ filesOfCat fs c →
        baseNameS p ∉ frameworkNames) ∧
    (∀ (fs : List FileEnt) (e : Str × Str), e ∈ planOf fs →
        baseNameS e.1 ∉ frameworkNames) ∧
    (∀ (st : FsState) (dry : Bool) (f : FileEnt), f ∈ st.files →
        baseNameS f.path ∈ frameworkNames →
        f.path ∈ pathsOf (executeReorganization st dry).files) := by
  refine ⟨?_, ?_, ?_⟩
  · intro fs c p h
    exact (of_keepFile (keep_of_mem_filesOfCat h)).2
  · intro fs e h
    exact (of_keepFile (planOf_key_keep h)).2
  · intro st dry f hf hfw
    have hmem : f.path ∈ pathsOf st.files := List.mem_map_of_mem FileEnt.path hf
    unfold executeReorganization
    dsimp only []
    split
    · exact hmem
    · rw [cleanupDirs_files, cmakePass_pathsOf, includePass_pathsOf]
      refine foldl_moveStep_preserves dry _ _ (fun e he => ?_) ?_
      · intro heq
        have hk := (of_keepFile (planOf_key_keep he)).2
        rw [← heq] at hk
        exact hk hfw
      · rw [dirPhase_files]
        exact hmem

/-- Tree with a plannable controller file and a framework support file used to
instantiate the universally quantified claims. -/
def stW : FsState :=
  ⟨[⟨("controller/Widget.cpp").data, []⟩, ⟨("TestUtilities.cpp").data, []⟩],
   [("controller").data]⟩

/-- C7 witness: the theorem applied to the concrete tree, with the membership
hypotheses discharged by evaluation. -/
theorem c7_witness :
    baseNameS (("controller/Widget.cpp").data) ∉ frameworkNames ∧
    (("TestUtilities.cpp").data : Str) ∈ pathsOf (executeReorganization stW false).files :=
  ⟨c7_framework_untouched.1 stW.files Cat.controller (("controller/Widget.cpp").data)
      (by decide),
   c7_framework_untouched.2.2 stW false ⟨("TestUtilities.cpp").data, []⟩
      (by decide) (by decide)⟩

theorem ends_bak_not_cpp {s : Str} (h : endsWithS s bakExt = true) :
    endsWithS s cppExt = false := by
  unfold endsWithS at h ⊢
  have h1 : s.reverse.take bakExt.length = bakExt.reverse := eq_of_beq h
  rw [Bool.eq_false_iff]
  intro hc
  have h2 : s.reverse.take cppExt.length = cppExt.reverse := eq_of_beq hc
  rw [show cppExt.length = bakExt.length from by decide, h1] at h2
  exact absurd h2 (by decide)

theorem ends_bak_not_h {s : Str} (h : endsWithS s bakExt = true) :
    endsWithS s hExt = false := by
  unfold endsWithS at h ⊢
  have h1 : s.reverse.take bakExt.length = bakExt.reverse := eq_of_beq h
  rw [Bool.eq_false_iff]
  intro hc
  have h2 : s.reverse.take hExt.length = hExt.reverse := eq_of_beq hc
  have h3 : (s.reverse.take bakExt.length).take hExt.length = s.reverse.take hExt.length := by
    rw [List.take_take, show min hExt.length bakExt.length = hExt.length from by decide]
  rw [← h3, h1] at h2
  exact absurd h2 (by decide)

theorem not_bak_of_cpp_or_h {nm : Str}
    (h : endsWithS nm cppExt = true ∨ endsWithS nm hExt = true) :
    endsWithS nm bakExt = false := by
  rw [Bool.eq_false_iff]
  intro hbak
  rcases h with h | h
  · rw [ends_bak_not_cpp hbak] at h
    exact Bool.false_ne_true h
  · rw [ends_bak_not_h hbak] at h
    exact Bool.false_ne_true h

/-- C10: only files ending in .cpp or .h are classified or planned, so a bak
file is never planned on a later run, and a file ending in .bak is not
scanned: the include pass leaves it untouched under every plan. -/
theorem c10_extension_filter :
    (∀ (fs : List FileEnt) (c : Cat) (p : Str), p ∈ filesOfCat fs c →
        (endsWithS (baseNameS p) cppExt = true ∨ endsWithS (baseNameS p) hExt = true) ∧
          endsWithS (baseNameS p) bakExt = false) ∧
    (∀ (fs : List FileEnt) (e : Str × Str), e ∈ planOf fs →
        (endsWithS (baseNameS e.1) cppExt = true ∨ endsWithS (baseNameS e.1) hExt = true) ∧
          endsWithS (baseNameS e.1) bakExt = false) ∧
    (∀ (dry : Bool) (mp : List (Str × Str)) (f : FileEnt),
        endsWithS (baseNameS f.path) bakExt = true → includeUpd dry mp f = f) := by
  refine ⟨?_, ?_, ?_⟩
  · intro fs c p h
    have he := (of_keepFile (keep_of_mem_filesOfCat h)).1
    exact ⟨he, not_bak_of_cpp_or_h he⟩
  · intro fs e h
    have he := (of_keepFile (planOf_key_keep h)).1
    exact ⟨he, not_bak_of_cpp_or_h he⟩
  · intro dry mp f h
    have h1 := ends_bak_not_cpp h
    have h2 := ends_bak_not_h h
    simp [includeUpd, scannedByIncludes, h1, h2]

/-- C10 witness: the theorem applied to the concrete tree and to a concrete
bak file. -/
theorem c10_witness :
    ((endsWithS (baseNameS (("controller/Widget.cpp").data)) cppExt = true ∨
        endsWithS (baseNameS (("controller/Widget.cpp").data)) hExt = true) ∧
      endsWithS (baseNameS (("controller/Widget.cpp").data)) bakExt = false) ∧
    includeUpd false [] (⟨("old.cpp.bak").data, []⟩ : FileEnt) =
      ⟨("old.cpp.bak").data, []⟩ :=
  ⟨c10_extension_filter.1 stW.files Cat.controller (("controller/Widget.cpp").data)
      (by decide),
   c10_extension_filter.2.2 false [] ⟨("old.cpp.bak").data, []⟩ (by decide)⟩

end Reorg
